import Mathlib

/-!
Verification development for `ott/tools/plot.py`: a shallow embedding of the
plotting module's algorithmic fragments (dimensionality reduction, the
coupling-to-geometry mapper, point-size scaling, barycentric projections)
over rational-valued matrices, together with theorems about them.

Matrices (`jnp.ndarray` of rank 2) are embedded as `List (List ℚ)` in
row-major layout; vectors as `List ℚ`.  Out-of-range indexing uses `getD`
with a default of `0` / `[]` (the indices produced by the code are in range).
-/

namespace OttPlot

/-- Rank-2 array: a list of rows. -/
abbrev Mat : Type := List (List ℚ)

/-- Reading `matrix[i, j]`, with default 0 when out of range. -/
def entry (M : Mat) (i j : ℕ) : ℚ := (M.getD i []).getD j 0

/-- Reading `matrix.shape[1]`: the common length of the rows (read off the
first row; jnp arrays are rectangular). -/
def numCols (M : Mat) : ℕ := (M.headD []).length

/-- Reading `x.shape[1]`: the embedding dimension of a point batch. -/
def dim (x : Mat) : ℕ := (x.headD []).length

/-- Minimum of a list of rationals (`jnp.min`); only read on nonempty lists. -/
def listMin : List ℚ → ℚ
  | [] => 0
  | [a] => a
  | a :: b :: t => min a (listMin (b :: t))

/-- Maximum of a list of rationals (`jnp.max`); only read on nonempty lists. -/
def listMax : List ℚ → ℚ
  | [] => 0
  | [a] => a
  | a :: b :: t => max a (listMax (b :: t))

/-- Embedding of `bidimensional(x, y)`:

```python
if x.shape[1] < 3:
  return x, y
u, s, _ = scipy.sparse.linalg.svds(jnp.concatenate([x, y], axis=0), k=2)
proj = u * s
k = x.shape[0]
return proj[:k], proj[k:]
```

The truncated SVD routine `scipy.sparse.linalg.svds` is external library
code, abstracted here as a function `svds : Mat → ℕ → Mat × List ℚ`
returning the pair `(u, s)` for a requested rank `k`.  The numpy product
`u * s` broadcasts the singular values across the columns of `u`. -/
def bidimensional (svds : Mat → ℕ → Mat × List ℚ) (x y : Mat) : Mat × Mat :=
  if dim x < 3 then (x, y)
  else
    let us := svds (x ++ y) 2
    let proj := us.1.map (fun row => List.zipWith (· * ·) row us.2)
    let k := x.length
    (proj.take k, proj.drop k)

/-- Index pairs of one row (row index `i`, first column index `j`) whose value
is strictly above `t`, in column order. -/
def selectRow (t : ℚ) (i : ℕ) : ℕ → List ℚ → List (ℕ × ℕ)
  | _, [] => []
  | j, v :: rest =>
      if t < v then (i, j) :: selectRow t i (j + 1) rest
      else selectRow t i (j + 1) rest

/-- Index pairs of the rows of a matrix starting at row index `i`, row-major. -/
def selectRows (t : ℚ) : ℕ → Mat → List (ℕ × ℕ)
  | _, [] => []
  | i, row :: rest => selectRow t i 0 row ++ selectRows t (i + 1) rest

/-- Embedding of `jnp.where(matrix > threshold)`: the row-major (C-order) list
of index pairs whose entry is strictly above the threshold. -/
def selectPairs (M : Mat) (t : ℚ) : List (ℕ × ℕ) := selectRows t 0 M

/-- One output item of `Plot._mapping`: `(start, end, strength, alpha)`, where
`start` and `end` are the two-element slices `xy[i, [0, 2]]` and
`xy[i, [1, 3]]` of the concatenated coordinate row `xy[i]`. -/
abbrev Edge : Type := (ℚ × ℚ) × (ℚ × ℚ) × ℚ × ℚ

/-- Embedding of `Plot._mapping(x, y, matrix)`, with the plot's threshold,
base alpha and `scale_alpha_by_coupling` flag passed explicitly:

```python
u, v = jnp.where(matrix > self._threshold)
c = matrix[jnp.where(matrix > self._threshold)]
xy = jnp.concatenate([x[u], y[v]], axis=-1)
scale_alpha_by_coupling = self._scale_alpha_by_coupling
if scale_alpha_by_coupling:
  min_matrix, max_matrix = jnp.min(c), jnp.max(c)
  scale_alpha_by_coupling = max_matrix != min_matrix
result = []
for i in range(xy.shape[0]):
  strength = jnp.max(jnp.array(matrix.shape)) * c[i]
  if scale_alpha_by_coupling:
    normalized_strength = (c[i] - min_matrix) / (max_matrix - min_matrix)
    alpha = self._alpha * float(normalized_strength)
  else:
    alpha = self._alpha
  alpha = np.clip(alpha, 0.0, 1.0)
  start, end = xy[i, [0, 2]], xy[i, [1, 3]]
  result.append((start, end, strength, alpha))
return result
```

`np.clip(a, 0, 1)` is `min (max a 0) 1`; `jnp.max(jnp.array(matrix.shape))`
is `max` of the two dimensions. -/
def mapping (t α : ℚ) (flag : Bool) (x y : Mat) (M : Mat) : List Edge :=
  let uv := selectPairs M t
  let c := uv.map (fun p => entry M p.1 p.2)
  let scaleAlphaByCoupling := flag && decide (listMax c ≠ listMin c)
  uv.map (fun p =>
    let ci := entry M p.1 p.2
    let strength := ((max M.length (numCols M) : ℕ) : ℚ) * ci
    let alpha0 :=
      if scaleAlphaByCoupling then
        α * ((ci - listMin c) / (listMax c - listMin c))
      else α
    let alpha := min (max alpha0 0) 1
    let xy := x.getD p.1 [] ++ y.getD p.2 []
    ((xy.getD 0 0, xy.getD 2 0), (xy.getD 1 0, xy.getD 3 0), strength, alpha))

/-- The geometry carried by a transport object: the `isinstance` check of
`Plot._scatter` only distinguishes point-cloud geometries from the rest, so
the embedding keeps a boolean tag next to the two point batches. -/
structure Geom where
  isPointCloud : Bool
  x : Mat
  y : Mat

/-- A transport-solution object: geometry, marginal weight vectors `a`, `b`
and the coupling matrix. -/
structure Transport where
  geom : Geom
  a : List ℚ
  b : List ℚ
  matrix : Mat

/-- The configuration fields of `Plot.__init__` that the drawing paths read. -/
structure PlotCfg where
  threshold : ℚ
  scale : ℚ
  showLines : Bool
  scaleAlphaByCoupling : Bool
  alpha : ℚ

/-- Python exceptions raised by the drawing paths: `ValueError` (the
geometry-kind check) and `AttributeError` (calling `set_offsets` on `None`). -/
inductive PlotErr where
  | valueError (msg : String)
  | attributeError
deriving DecidableEq

/-- A drawn artist handle: a scatter point set (offsets and sizes) or a line. -/
inductive Artist where
  | scatterPts (offsets : Mat) (sizes : List ℚ)
  | line (e : Edge)
deriving DecidableEq

/-- The mutable drawing state of a `Plot`: `self._points_x`, `self._points_y`
(each an offsets/sizes pair once created) and `self._lines`. -/
structure PlotState where
  pointsX : Option (Mat × List ℚ)
  pointsY : Option (Mat × List ℚ)
  lines : List Edge

/-- Embedding of `Plot._scatter(ot)`:

```python
if not isinstance(ot.geom, pointcloud.PointCloud):
  raise ValueError("So far we only plot PointCloud geometry.")
x, y = ot.geom.x, ot.geom.y
a, b = ot.a, ot.b
x, y = bidimensional(x, y)
scales_x = a * self._scale * a.shape[0]
scales_y = b * self._scale * b.shape[0]
return x, y, scales_x, scales_y
``` -/
def scatterFn (svds : Mat → ℕ → Mat × List ℚ) (cfg : PlotCfg) (ot : Transport) :
    Except PlotErr (Mat × Mat × List ℚ × List ℚ) :=
  if ot.geom.isPointCloud = false then
    .error (.valueError "So far we only plot PointCloud geometry.")
  else
    let xy := bidimensional svds ot.geom.x ot.geom.y
    let scales_x := ot.a.map (fun w => w * cfg.scale * (ot.a.length : ℚ))
    let scales_y := ot.b.map (fun w => w * cfg.scale * (ot.b.length : ℚ))
    .ok (xy.1, xy.2, scales_x, scales_y)

/-- Embedding of `Plot.__call__(ot)`: scatter both point sets, and when
`show_lines` is unset return `[]` without touching `self._lines`; otherwise
redraw the lines from `_mapping` and return all artist handles. -/
def plotCall (svds : Mat → ℕ → Mat × List ℚ) (cfg : PlotCfg) (st : PlotState)
    (ot : Transport) : Except PlotErr (PlotState × List Artist) :=
  match scatterFn svds cfg ot with
  | .error e => .error e
  | .ok (x, y, sx, sy) =>
    let st1 : PlotState :=
      { st with pointsX := some (x, sx), pointsY := some (y, sy) }
    if cfg.showLines = false then .ok (st1, [])
    else
      let lines := mapping cfg.threshold cfg.alpha cfg.scaleAlphaByCoupling x y ot.matrix
      let st2 : PlotState := { st1 with lines := lines }
      .ok (st2, [Artist.scatterPts x sx, Artist.scatterPts y sy] ++ lines.map Artist.line)

/-- The incremental line update of `Plot.update`: existing line artists
zipped against the new line data are updated in place, then
`for i in range(num_lines, num_to_plot)` appends the new lines past the old
length, then `self._lines = self._lines[:num_to_plot]` truncates. -/
def updateLines (old new : List Edge) : List Edge :=
  let updated := (old.zip new).map (fun p => p.2) ++ old.drop new.length
  let extended := updated ++ new.drop old.length
  extended.take new.length

/-- Embedding of `Plot.update(ot)`: recompute positions via `_scatter`, move
the two scatter artists (`set_offsets`, which keeps their sizes), and when
`show_lines` is unset return `[]`; otherwise update/extend/truncate the line
artists against the new `_mapping` output and return all handles.  Calling
`set_offsets` on a plot that was never drawn (`self._points_x is None`) is a
Python `AttributeError`. -/
def plotUpdate (svds : Mat → ℕ → Mat × List ℚ) (cfg : PlotCfg) (st : PlotState)
    (ot : Transport) : Except PlotErr (PlotState × List Artist) :=
  match scatterFn svds cfg ot with
  | .error e => .error e
  | .ok (x, y, _, _) =>
    match st.pointsX, st.pointsY with
    | some px, some py =>
      let st1 : PlotState :=
        { st with pointsX := some (x, px.2), pointsY := some (y, py.2) }
      if cfg.showLines = false then .ok (st1, [])
      else
        let newLines := mapping cfg.threshold cfg.alpha cfg.scaleAlphaByCoupling x y ot.matrix
        let st2 : PlotState := { st1 with lines := updateLines st.lines newLines }
        .ok (st2, [Artist.scatterPts x px.2, Artist.scatterPts y py.2] ++
              st2.lines.map Artist.line)
    | _, _ => .error .attributeError

/-- Dot product of two vectors (`jnp.matmul`, one output entry). -/
def dot (u v : List ℚ) : ℚ := (List.zipWith (· * ·) u v).sum

/-- Column `j` of a matrix. -/
def colOf (B : Mat) (j : ℕ) : List ℚ := B.map (fun row => row.getD j 0)

/-- Matrix product `jnp.matmul(A, B)`. -/
def matMul (A B : Mat) : Mat :=
  A.map (fun row => (List.range (numCols B)).map (fun j => dot row (colOf B j)))

/-- Embedding of `_barycenters(ax, y, a, b, matrix, scale)`:

```python
sa, sb = jnp.min(a) / scale, jnp.min(b) / scale
ax.scatter(*y.T, s=b / sb, ...)
tx = 1 / a[:, None] * jnp.matmul(matrix, y)
ax.scatter(*tx.T, s=a / sa, ...)
```

The result is the pair of scatter artists drawn, in drawing order. -/
def barycenters (y : Mat) (a b : List ℚ) (matrix : Mat) (scale : ℚ) :
    Artist × Artist :=
  let sa := listMin a / scale
  let sb := listMin b / scale
  let tx := List.zipWith (fun ai row => row.map (fun v => 1 / ai * v)) a (matMul matrix y)
  (Artist.scatterPts y (b.map (fun w => w / sb)),
   Artist.scatterPts tx (a.map (fun w => w / sa)))

/-- Embedding of the arguments-only (raw-array) path of
`barycentric_projections`:

```python
if utils.is_jax_array(arg):
  if matrix is None:
    raise ValueError("The `matrix` argument cannot be None.")
  a = jnp.ones(matrix.shape[0]) / matrix.shape[0] if a is None else a
  b = jnp.ones(matrix.shape[1]) / matrix.shape[1] if b is None else b
  return _barycenters(ax, arg, a, b, matrix, **kwargs)
``` -/
def barycentricProjectionsRaw (arg : Mat) (a? b? : Option (List ℚ))
    (matrix? : Option Mat) (scale : ℚ) : Except PlotErr (Artist × Artist) :=
  match matrix? with
  | none => .error (.valueError "The `matrix` argument cannot be None.")
  | some matrix =>
    let a := match a? with
      | none => List.replicate matrix.length ((1 : ℚ) / (matrix.length : ℚ))
      | some a => a
    let b := match b? with
      | none => List.replicate (numCols matrix) ((1 : ℚ) / ((numCols matrix) : ℚ))
      | some b => b
    .ok (barycenters arg a b matrix scale)

/-- Spec-side description of the selection: all index pairs of an `n × m`
array in row-major order. -/
def rowMajorPairs (n m : ℕ) : List (ℕ × ℕ) :=
  (List.range n).flatMap (fun i => (List.range m).map (fun j => (i, j)))

/-- Spec-side description of `jnp.where(matrix > t)` for an `n × m` matrix:
filter the row-major enumeration by the strict threshold comparison. -/
def specSelect (M : Mat) (t : ℚ) (n m : ℕ) : List (ℕ × ℕ) :=
  (rowMajorPairs n m).filter (fun p => decide (t < entry M p.1 p.2))

/-- The number of entries of a matrix strictly above a threshold. -/
def countAbove (M : Mat) (t : ℚ) : ℕ :=
  (M.map (fun row => (row.filter (fun v => decide (t < v))).length)).sum

/-- Sizes carried by a scatter artist (empty for a line artist). -/
def sizesOf : Artist → List ℚ
  | .scatterPts _ s => s
  | .line _ => []

/-! Facts about `listMin` and `listMax`. -/

theorem listMin_le_of_mem : ∀ {l : List ℚ} {v : ℚ}, v ∈ l → listMin l ≤ v := by
  intro l
  induction l with
  | nil => intro v h; cases h
  | cons a t ih =>
    intro v h
    cases t with
    | nil =>
      rcases List.mem_singleton.mp h with rfl
      simp [listMin]
    | cons b t' =>
      simp only [listMin]
      rcases List.mem_cons.mp h with rfl | h'
      · exact min_le_left _ _
      · exact le_trans (min_le_right _ _) (ih h')

theorem le_listMax_of_mem : ∀ {l : List ℚ} {v : ℚ}, v ∈ l → v ≤ listMax l := by
  intro l
  induction l with
  | nil => intro v h; cases h
  | cons a t ih =>
    intro v h
    cases t with
    | nil =>
      rcases List.mem_singleton.mp h with rfl
      simp [listMax]
    | cons b t' =>
      simp only [listMax]
      rcases List.mem_cons.mp h with rfl | h'
      · exact le_max_left _ _
      · exact le_trans (ih h') (le_max_right _ _)

theorem listMin_mem : ∀ {l : List ℚ}, l ≠ [] → listMin l ∈ l := by
  intro l
  induction l with
  | nil => intro h; exact absurd rfl h
  | cons a t ih =>
    intro _
    cases t with
    | nil => simp [listMin]
    | cons b t' =>
      simp only [listMin]
      rcases le_total a (listMin (b :: t')) with h | h
      · rw [min_eq_left h]; exact List.mem_cons_self a _
      · rw [min_eq_right h]
        exact List.mem_cons_of_mem a (ih (List.cons_ne_nil b t'))

theorem listMax_mem : ∀ {l : List ℚ}, l ≠ [] → listMax l ∈ l := by
  intro l
  induction l with
  | nil => intro h; exact absurd rfl h
  | cons a t ih =>
    intro _
    cases t with
    | nil => simp [listMax]
    | cons b t' =>
      simp only [listMax]
      rcases le_total a (listMax (b :: t')) with h | h
      · rw [max_eq_right h]
        exact List.mem_cons_of_mem a (ih (List.cons_ne_nil b t'))
      · rw [max_eq_left h]; exact List.mem_cons_self a _

theorem all_eq_of_listMin_eq_listMax {l : List ℚ} (h : listMin l = listMax l) :
    ∀ a ∈ l, ∀ b ∈ l, a = b := by
  intro a ha b hb
  have h1 : a ≤ b :=
    le_trans (le_listMax_of_mem ha) (le_trans (le_of_eq h.symm) (listMin_le_of_mem hb))
  have h2 : b ≤ a :=
    le_trans (le_listMax_of_mem hb) (le_trans (le_of_eq h.symm) (listMin_le_of_mem ha))
  exact le_antisymm h1 h2

theorem listMin_eq_listMax_of_all_eq {l : List ℚ} (hne : l ≠ [])
    (h : ∀ a ∈ l, ∀ b ∈ l, a = b) : listMin l = listMax l :=
  h _ (listMin_mem hne) _ (listMax_mem hne)

/-- Normalizing a member of a list by the span of the list lands in `[0, 1]`. -/
theorem normalized_mem_Icc {c : List ℚ} {v : ℚ} (hv : v ∈ c)
    (hne : listMax c ≠ listMin c) :
    0 ≤ (v - listMin c) / (listMax c - listMin c) ∧
      (v - listMin c) / (listMax c - listMin c) ≤ 1 := by
  have hmin := listMin_le_of_mem hv
  have hmax := le_listMax_of_mem hv
  have hlt : listMin c < listMax c := lt_of_le_of_ne (le_trans hmin hmax) (Ne.symm hne)
  have hpos : 0 < listMax c - listMin c := sub_pos.mpr hlt
  refine ⟨div_nonneg (sub_nonneg.mpr hmin) hpos.le, ?_⟩
  rw [div_le_one hpos]
  exact sub_le_sub_right hmax _

/-- Clamping a value already inside `[0, 1]` is the identity. -/
theorem clip_eq_self {a : ℚ} (h0 : 0 ≤ a) (h1 : a ≤ 1) : min (max a 0) 1 = a := by
  rw [max_eq_left h0, min_eq_left h1]

/-! Generic list helpers. -/

theorem flatMap_congr_mem {α β : Type*} {l : List α} {f g : α → List β}
    (h : ∀ a ∈ l, f a = g a) : l.flatMap f = l.flatMap g := by
  induction l with
  | nil => rfl
  | cons a t ih =>
    rw [List.flatMap_cons, List.flatMap_cons, h a (List.mem_cons_self a t),
      ih (fun b hb => h b (List.mem_cons_of_mem a hb))]

theorem filter_flatMap_comm {α β : Type*} (p : β → Bool) (l : List α) (f : α → List β) :
    (l.flatMap f).filter p = l.flatMap (fun a => (f a).filter p) := by
  induction l with
  | nil => rfl
  | cons a t ih => rw [List.flatMap_cons, List.flatMap_cons, List.filter_append, ih]

theorem filter_map_eq_filterMap {α β : Type*} (f : α → β) (p : β → Bool) (l : List α) :
    (l.map f).filter p = l.filterMap (fun a => if p (f a) then some (f a) else none) := by
  induction l with
  | nil => rfl
  | cons a t ih =>
    by_cases h : p (f a) <;> simp [List.filter_cons, h, ih]

/-! Characterizations of the threshold selection. -/

theorem selectRow_eq (t : ℚ) (i : ℕ) (row : List ℚ) :
    ∀ j, selectRow t i j row =
      (List.range row.length).filterMap
        (fun k => if t < row.getD k 0 then some (i, j + k) else none) := by
  induction row with
  | nil => intro j; simp [selectRow]
  | cons v rest ih =>
    intro j
    have hcomp :
        ((fun k => if t < (v :: rest).getD k 0 then some (i, j + k) else none) ∘ Nat.succ)
          = (fun k => if t < rest.getD k 0 then some (i, (j + 1) + k) else none) := by
      funext k
      simp [Function.comp, Nat.succ_eq_add_one, Nat.add_assoc, Nat.add_comm,
        Nat.add_left_comm]
    rw [List.length_cons, List.range_succ_eq_map, List.filterMap_cons,
      List.filterMap_map, hcomp, ← ih (j + 1)]
    by_cases hv : t < v <;> simp [selectRow, hv]

theorem selectRows_eq (t : ℚ) (M : Mat) :
    ∀ i0, selectRows t i0 M =
      (List.range M.length).flatMap
        (fun r => selectRow t (i0 + r) 0 (M.getD r [])) := by
  induction M with
  | nil => intro i0; simp [selectRows]
  | cons row rest ih =>
    intro i0
    rw [List.length_cons, List.range_succ_eq_map, List.flatMap_cons, List.flatMap_map]
    simp only [selectRows]
    refine congrArg₂ (· ++ ·) (by simp) ((ih (i0 + 1)).trans (flatMap_congr_mem ?_))
    intro a _
    have h1 : (i0 + 1) + a = i0 + a.succ := by omega
    simp [h1, Nat.succ_eq_add_one, List.getD_cons_succ]

theorem selectPairs_eq (t : ℚ) (M : Mat) :
    selectPairs M t =
      (List.range M.length).flatMap (fun r => selectRow t r 0 (M.getD r [])) := by
  have h := selectRows_eq t M 0
  simpa [selectPairs] using h

theorem specSelect_eq (M : Mat) (t : ℚ) (n m : ℕ) :
    specSelect M t n m =
      (List.range n).flatMap (fun i =>
        (List.range m).filterMap
          (fun j => if t < entry M i j then some (i, j) else none)) := by
  unfold specSelect rowMajorPairs
  rw [filter_flatMap_comm]
  refine flatMap_congr_mem ?_
  intro i _
  rw [filter_map_eq_filterMap]
  refine List.filterMap_congr ?_
  intro j _
  by_cases h : t < entry M i j <;> simp [h]

/-- On a rectangular matrix, the scan of `jnp.where` coincides with the
spec-side description: filter the row-major enumeration by the threshold. -/
theorem selectPairs_eq_specSelect {M : Mat} {n m : ℕ} (t : ℚ)
    (hn : M.length = n) (hm : ∀ row ∈ M, row.length = m) :
    selectPairs M t = specSelect M t n m := by
  subst hn
  rw [selectPairs_eq, specSelect_eq]
  refine flatMap_congr_mem ?_
  intro r hr
  rw [List.mem_range] at hr
  have hrow : M.getD r [] = M[r] := List.getD_eq_getElem M [] hr
  have hlen : (M.getD r []).length = m := by
    rw [hrow]; exact hm _ (List.getElem_mem hr)
  rw [selectRow_eq, hlen]
  refine List.filterMap_congr ?_
  intro j _
  simp [entry]

theorem mem_specSelect_bounds {M : Mat} {t : ℚ} {n m : ℕ} {p : ℕ × ℕ}
    (h : p ∈ specSelect M t n m) : p.1 < n ∧ p.2 < m := by
  have hmem : p ∈ rowMajorPairs n m := (List.mem_filter.mp h).1
  rcases p with ⟨i, j⟩
  simp only [rowMajorPairs, List.mem_flatMap, List.mem_map, List.mem_range] at hmem
  obtain ⟨i', hi', j', hj', heq⟩ := hmem
  cases heq
  exact ⟨hi', hj'⟩

theorem length_selectRow (t : ℚ) (i : ℕ) (row : List ℚ) :
    ∀ j, (selectRow t i j row).length =
      (row.filter (fun v => decide (t < v))).length := by
  induction row with
  | nil => intro j; simp [selectRow]
  | cons v rest ih =>
    intro j
    by_cases h : t < v <;> simp [selectRow, h, List.filter_cons, ih (j + 1)]

theorem length_selectRows (t : ℚ) (M : Mat) :
    ∀ i0, (selectRows t i0 M).length = countAbove M t := by
  induction M with
  | nil => intro i0; simp [selectRows, countAbove]
  | cons row rest ih =>
    intro i0
    simp [selectRows, countAbove, length_selectRow, ih (i0 + 1)]

theorem length_mapping (t α : ℚ) (flag : Bool) (x y M : Mat) :
    (mapping t α flag x y M).length = countAbove M t := by
  simp only [mapping, List.length_map, selectPairs]
  exact length_selectRows t M 0

theorem selectRow_eq_nil {t : ℚ} {row : List ℚ} (h : ∀ v ∈ row, v ≤ t) (i : ℕ) :
    ∀ j, selectRow t i j row = [] := by
  induction row with
  | nil => intro j; rfl
  | cons v rest ih =>
    intro j
    have hv : ¬ t < v := not_lt.mpr (h v (List.mem_cons_self v rest))
    simp only [selectRow, hv, if_neg, ite_false]
    exact ih (fun w hw => h w (List.mem_cons_of_mem v hw)) (j + 1)

theorem selectPairs_eq_nil {t : ℚ} {M : Mat}
    (h : ∀ row ∈ M, ∀ v ∈ row, v ≤ t) : selectPairs M t = [] := by
  unfold selectPairs
  suffices hs : ∀ i0, selectRows t i0 M = [] from hs 0
  induction M with
  | nil => intro i0; rfl
  | cons row rest ih =>
    intro i0
    simp only [selectRows]
    rw [selectRow_eq_nil (h row (List.mem_cons_self row rest)) i0 0,
      ih (fun r hr => h r (List.mem_cons_of_mem row hr)) (i0 + 1)]
    rfl

/-! Claim theorems. -/

/-- C2: for every coupling matrix and threshold such that no matrix entry is
strictly greater than the threshold, `_mapping` returns the empty sequence
(and, the embedding being total, raises no error), for both values of the
`scale_alpha_by_coupling` flag. -/
theorem C2_no_entries_above_threshold_empty (t α : ℚ) (flag : Bool) (x y M : Mat)
    (h : ∀ row ∈ M, ∀ v ∈ row, v ≤ t) :
    mapping t α flag x y M = [] := by
  simp [mapping, selectPairs_eq_nil h]

theorem C2_no_entries_above_threshold_empty_witness :
    (∀ row ∈ [[(1 : ℚ)]], ∀ v ∈ row, v ≤ 1) ∧
      mapping 1 (7/10) true [[(1 : ℚ), 2]] [[(3 : ℚ), 4]] [[(1 : ℚ)]] = [] := by
  refine ⟨by norm_num, ?_⟩
  exact C2_no_entries_above_threshold_empty 1 (7/10) true _ _ _ (by norm_num)

/-- C3: for every pair of point batches whose embedding dimension `d` is at
most 2, `bidimensional` is the identity: it returns `x` and `y` unchanged. -/
theorem C3_low_dim_identity (svds : Mat → ℕ → Mat × List ℚ) (x y : Mat) (d : ℕ)
    (hx : dim x = d) (hy : dim y = d) (hd : d ≤ 2) :
    bidimensional svds x y = (x, y) := by
  have h3 : dim x < 3 := by omega
  simp [bidimensional, h3]

theorem C3_low_dim_identity_witness :
    dim [[(1 : ℚ), 2]] = 2 ∧ dim [[(3 : ℚ), 4]] = 2 ∧ 2 ≤ 2 ∧
      bidimensional (fun _ _ => ([], [])) [[(1 : ℚ), 2]] [[(3 : ℚ), 4]] =
        ([[(1 : ℚ), 2]], [[(3 : ℚ), 4]]) :=
  ⟨rfl, rfl, le_refl 2,
    C3_low_dim_identity (fun _ _ => ([], [])) _ _ 2 rfl rfl (le_refl 2)⟩

/-- C4: for point batches with `d > 2`, `bidimensional` concatenates `x` and
`y` along the point axis, computes the rank-2 truncated SVD `(u, s)` of the
concatenation, forms the projection `u * s` (columnwise scaling by the
singular values, i.e. `U·diag(S)`), and returns its first `n` rows and the
remaining `m` rows. -/
theorem C4_svd_projection_split (svds : Mat → ℕ → Mat × List ℚ) (x y : Mat)
    (hd : 2 < dim x) :
    let u := (svds (x ++ y) 2).1
    let s := (svds (x ++ y) 2).2
    let proj := u.map (fun row => List.zipWith (· * ·) row s)
    bidimensional svds x y = (proj.take x.length, proj.drop x.length) ∧
    (u.length = x.length + y.length →
      (bidimensional svds x y).1.length = x.length ∧
      (bidimensional svds x y).2.length = y.length) ∧
    (∀ r, r < u.length → ∀ j, j < (u.getD r []).length → j < s.length →
      (proj.getD r []).getD j 0 = (u.getD r []).getD j 0 * s.getD j 0) := by
  intro u s proj
  have hneg : ¬ dim x < 3 := by omega
  have hbid : bidimensional svds x y = (proj.take x.length, proj.drop x.length) := by
    unfold bidimensional
    rw [if_neg hneg]
  refine ⟨hbid, ?_, ?_⟩
  · intro hu
    have hproj : proj.length = x.length + y.length := by
      simpa [proj] using hu
    rw [hbid]
    constructor
    · simp [List.length_take, hproj]
    · simp [List.length_drop, hproj]
  · intro r hr j hju hjs
    have hrp : r < proj.length := by simpa [proj] using hr
    have hrow : proj.getD r [] = List.zipWith (· * ·) (u.getD r []) s := by
      rw [List.getD_eq_getElem proj [] hrp, List.getD_eq_getElem u [] hr]
      simp [proj]
    rw [hrow]
    have hj : j < (List.zipWith (· * ·) (u.getD r []) s).length := by
      rw [List.length_zipWith]
      exact lt_min hju hjs
    rw [List.getD_eq_getElem _ _ hj, List.getElem_zipWith,
      List.getD_eq_getElem _ _ hju, List.getD_eq_getElem _ _ hjs]

theorem C4_svd_projection_split_witness :
    2 < dim [[(1 : ℚ), 2, 3]] ∧
      bidimensional (fun _ _ => ([[5, 6], [7, 8]], [2, 3]))
        [[(1 : ℚ), 2, 3]] [[(4 : ℚ), 5, 6]] = ([[10, 18]], [[14, 24]]) := by
  refine ⟨by norm_num [dim], ?_⟩
  have h := C4_svd_projection_split (fun _ _ => ([[5, 6], [7, 8]], [2, 3]))
    [[(1 : ℚ), 2, 3]] [[(4 : ℚ), 5, 6]] (by norm_num [dim])
  rw [h.1]
  norm_num [List.zipWith]

/-- C6: every alpha value emitted by `_mapping` lies in `[0, 1]`, for every
input coupling matrix, threshold, base alpha and both flag values, because
the final alpha is clamped into `[0, 1]`. -/
theorem C6_alpha_clamped (t α : ℚ) (flag : Bool) (x y M : Mat) :
    ∀ e ∈ mapping t α flag x y M, 0 ≤ e.2.2.2 ∧ e.2.2.2 ≤ 1 := by
  intro e he
  simp only [mapping, List.mem_map] at he
  obtain ⟨p, _, rfl⟩ := he
  exact ⟨le_min (le_max_right _ _) zero_le_one, min_le_right _ _⟩

theorem C6_alpha_clamped_witness :
    (((0 : ℚ), 0), ((0 : ℚ), 0), (1000000000 : ℚ), (7/10 : ℚ)) ∈
      mapping (-1) (7/10) false [[(0 : ℚ), 0]] [[(0 : ℚ), 0]]
        [[(1000000000 : ℚ)]] ∧
    (0 : ℚ) ≤ (7/10 : ℚ) ∧ (7/10 : ℚ) ≤ 1 := by
  have hm : mapping (-1) (7/10) false [[(0 : ℚ), 0]] [[(0 : ℚ), 0]]
      [[(1000000000 : ℚ)]] =
      [(((0 : ℚ), 0), ((0 : ℚ), 0), (1000000000 : ℚ), (7/10 : ℚ))] := by
    norm_num [mapping, selectPairs, selectRows, selectRow, entry, numCols,
      min_def, max_def]
  have hmem : (((0 : ℚ), 0), ((0 : ℚ), 0), (1000000000 : ℚ), (7/10 : ℚ)) ∈
      mapping (-1) (7/10) false [[(0 : ℚ), 0]] [[(0 : ℚ), 0]]
        [[(1000000000 : ℚ)]] := by
    rw [hm]; exact List.mem_singleton.mpr rfl
  exact ⟨hmem, C6_alpha_clamped (-1) (7/10) false _ _ _ _ hmem⟩

/-- C7: point-size scaling is the stated linear rescaling in each drawing
path: `Plot._scatter` computes per-point sizes `w * scale * n` for each
marginal vector `w`, and `_barycenters` computes per-point sizes
`w / (min(w) / scale)`. -/
theorem C7_point_size_scaling (svds : Mat → ℕ → Mat × List ℚ) (cfg : PlotCfg)
    (ot : Transport) (hpc : ot.geom.isPointCloud = true) :
    scatterFn svds cfg ot = .ok
      ((bidimensional svds ot.geom.x ot.geom.y).1,
       (bidimensional svds ot.geom.x ot.geom.y).2,
       ot.a.map (fun w => w * cfg.scale * (ot.a.length : ℚ)),
       ot.b.map (fun w => w * cfg.scale * (ot.b.length : ℚ))) ∧
    ∀ (y : Mat) (a b : List ℚ) (M : Mat) (s : ℚ),
      sizesOf (barycenters y a b M s).2 = a.map (fun w => w / (listMin a / s)) ∧
      sizesOf (barycenters y a b M s).1 = b.map (fun w => w / (listMin b / s)) := by
  constructor
  · simp [scatterFn, hpc]
  · intro y a b M s
    exact ⟨rfl, rfl⟩

theorem C7_point_size_scaling_witness :
    (true : Bool) = true ∧
      scatterFn (fun _ _ => ([], []))
        { threshold := -1, scale := 200, showLines := true,
          scaleAlphaByCoupling := false, alpha := 7/10 }
        { geom := { isPointCloud := true, x := [[1, 2]], y := [[3, 4]] },
          a := [1], b := [2], matrix := [[1]] } =
        .ok ([[(1 : ℚ), 2]], [[(3 : ℚ), 4]], [(200 : ℚ)], [(400 : ℚ)]) := by
  refine ⟨rfl, ?_⟩
  have h := (C7_point_size_scaling (fun _ _ => ([], []))
    { threshold := -1, scale := 200, showLines := true,
      scaleAlphaByCoupling := false, alpha := 7/10 }
    { geom := { isPointCloud := true, x := [[1, 2]], y := [[3, 4]] },
      a := [1], b := [2], matrix := [[1]] } rfl).1
  rw [h]
  norm_num [bidimensional, dim]

/-- C8: `Plot._scatter` — and hence `Plot.__call__` and `Plot.update` —
raises a `ValueError` if and only if the transport's geometry is not a plain
point cloud; when it is a point cloud, no geometry-kind error is raised. -/
theorem C8_geometry_error_iff (svds : Mat → ℕ → Mat × List ℚ) (cfg : PlotCfg)
    (st : PlotState) (ot : Transport) :
    ((∃ msg, scatterFn svds cfg ot = .error (.valueError msg)) ↔
      ot.geom.isPointCloud = false) ∧
    ((∃ msg, plotCall svds cfg st ot = .error (.valueError msg)) ↔
      ot.geom.isPointCloud = false) ∧
    ((∃ msg, plotUpdate svds cfg st ot = .error (.valueError msg)) ↔
      ot.geom.isPointCloud = false) := by
  cases hpc : ot.geom.isPointCloud with
  | false =>
    have hs : scatterFn svds cfg ot =
        .error (.valueError "So far we only plot PointCloud geometry.") := by
      simp [scatterFn, hpc]
    refine ⟨⟨fun _ => rfl, fun _ => ⟨_, hs⟩⟩, ?_, ?_⟩
    · refine ⟨fun _ => rfl, fun _ => ⟨"So far we only plot PointCloud geometry.", ?_⟩⟩
      simp [plotCall, hs]
    · refine ⟨fun _ => rfl, fun _ => ⟨"So far we only plot PointCloud geometry.", ?_⟩⟩
      simp [plotUpdate, hs]
  | true =>
    have hv : scatterFn svds cfg ot = .ok
        ((bidimensional svds ot.geom.x ot.geom.y).1,
         (bidimensional svds ot.geom.x ot.geom.y).2,
         ot.a.map (fun w => w * cfg.scale * (ot.a.length : ℚ)),
         ot.b.map (fun w => w * cfg.scale * (ot.b.length : ℚ))) := by
      simp [scatterFn, hpc]
    refine ⟨?_, ?_, ?_⟩
    · simp [hv]
    · by_cases hsl : cfg.showLines = false <;> simp [plotCall, hv, hsl]
    · rcases hx : st.pointsX with _ | px <;> rcases hy : st.pointsY with _ | py <;>
        by_cases hsl : cfg.showLines = false <;>
        simp [plotUpdate, hv, hx, hy, hsl]

/-- C9: in the raw-array path of `barycentric_projections`, a `None` marginal
defaults to the uniform vector (`1/n` entries for `a` with `n` the row count,
`1/m` entries for `b` with `m` the column count), and these defaulted vectors
are the weights passed on to `_barycenters`. -/
theorem C9_uniform_marginal_defaults (arg : Mat) (M : Mat) (s : ℚ) :
    barycentricProjectionsRaw arg none none (some M) s =
      .ok (barycenters arg
        (List.replicate M.length ((1 : ℚ) / (M.length : ℚ)))
        (List.replicate (numCols M) ((1 : ℚ) / ((numCols M) : ℚ))) M s) ∧
    (∀ a : List ℚ, barycentricProjectionsRaw arg (some a) none (some M) s =
      .ok (barycenters arg a
        (List.replicate (numCols M) ((1 : ℚ) / ((numCols M) : ℚ))) M s)) ∧
    (∀ b : List ℚ, barycentricProjectionsRaw arg none (some b) (some M) s =
      .ok (barycenters arg
        (List.replicate M.length ((1 : ℚ) / (M.length : ℚ))) b M s)) :=
  ⟨rfl, fun _ => rfl, fun _ => rfl⟩

/-- C10: when the plot was constructed with `show_lines=False`, both
`Plot.__call__` and `Plot.update` return the empty list of artist handles,
even though the two scatter point sets are still drawn (respectively have
their offsets updated) before returning. -/
theorem C10_show_lines_false_empty_handles (svds : Mat → ℕ → Mat × List ℚ)
    (cfg : PlotCfg) (st : PlotState) (ot : Transport)
    (hs : cfg.showLines = false) (hpc : ot.geom.isPointCloud = true) :
    plotCall svds cfg st ot = .ok
      ({ st with
          pointsX := some ((bidimensional svds ot.geom.x ot.geom.y).1,
            ot.a.map (fun w => w * cfg.scale * (ot.a.length : ℚ))),
          pointsY := some ((bidimensional svds ot.geom.x ot.geom.y).2,
            ot.b.map (fun w => w * cfg.scale * (ot.b.length : ℚ))) }, []) ∧
    (∀ px py, st.pointsX = some px → st.pointsY = some py →
      plotUpdate svds cfg st ot = .ok
        ({ st with
            pointsX := some ((bidimensional svds ot.geom.x ot.geom.y).1, px.2),
            pointsY := some ((bidimensional svds ot.geom.x ot.geom.y).2, py.2) },
          [])) := by
  have hv : scatterFn svds cfg ot = .ok
      ((bidimensional svds ot.geom.x ot.geom.y).1,
       (bidimensional svds ot.geom.x ot.geom.y).2,
       ot.a.map (fun w => w * cfg.scale * (ot.a.length : ℚ)),
       ot.b.map (fun w => w * cfg.scale * (ot.b.length : ℚ))) := by
    simp [scatterFn, hpc]
  constructor
  · simp [plotCall, hv, hs]
  · intro px py hx hy
    simp [plotUpdate, hv, hs, hx, hy]

theorem C10_show_lines_false_empty_handles_witness :
    (false : Bool) = false ∧ (true : Bool) = true ∧
      plotCall (fun _ _ => ([], []))
        { threshold := -1, scale := 200, showLines := false,
          scaleAlphaByCoupling := false, alpha := 7/10 }
        { pointsX := some ([[0, 0]], [50]), pointsY := some ([[1, 1]], [60]),
          lines := [] }
        { geom := { isPointCloud := true, x := [[1, 2]], y := [[3, 4]] },
          a := [1], b := [2], matrix := [[1]] } =
        .ok ({ pointsX := some ([[(1 : ℚ), 2]], [(200 : ℚ)]),
               pointsY := some ([[(3 : ℚ), 4]], [(400 : ℚ)]), lines := [] }, []) ∧
      plotUpdate (fun _ _ => ([], []))
        { threshold := -1, scale := 200, showLines := false,
          scaleAlphaByCoupling := false, alpha := 7/10 }
        { pointsX := some ([[0, 0]], [50]), pointsY := some ([[1, 1]], [60]),
          lines := [] }
        { geom := { isPointCloud := true, x := [[1, 2]], y := [[3, 4]] },
          a := [1], b := [2], matrix := [[1]] } =
        .ok ({ pointsX := some ([[(1 : ℚ), 2]], [(50 : ℚ)]),
               pointsY := some ([[(3 : ℚ), 4]], [(60 : ℚ)]), lines := [] }, []) := by
  have h := C10_show_lines_false_empty_handles (fun _ _ => ([], []))
    { threshold := -1, scale := 200, showLines := false,
      scaleAlphaByCoupling := false, alpha := 7/10 }
    { pointsX := some ([[0, 0]], [50]), pointsY := some ([[1, 1]], [60]),
      lines := [] }
    { geom := { isPointCloud := true, x := [[1, 2]], y := [[3, 4]] },
      a := [1], b := [2], matrix := [[1]] } rfl rfl
  refine ⟨rfl, rfl, ?_, ?_⟩
  · rw [h.1]
    norm_num [bidimensional, dim]
  · rw [h.2 ([[0, 0]], [50]) ([[1, 1]], [60]) rfl rfl]
    norm_num [bidimensional, dim]

/-- When the opacity-scaling condition computes to `false`, every emitted
alpha is the clamped base alpha. -/
theorem mapping_alpha_unscaled (t α : ℚ) (flag : Bool) (x y M : Mat)
    (hflag : (flag && decide
        (listMax ((selectPairs M t).map (fun p => entry M p.1 p.2)) ≠
          listMin ((selectPairs M t).map (fun p => entry M p.1 p.2)))) = false) :
    ∀ e ∈ mapping t α flag x y M, e.2.2.2 = min (max α 0) 1 := by
  intro e he
  simp only [mapping, List.mem_map] at he
  obtain ⟨p, hp, rfl⟩ := he
  simp only [hflag, Bool.false_eq_true, if_false]

/-- C5: when `scale_alpha_by_coupling` is set and the selected entries are
not all equal, the `k`-th edge's alpha is the base alpha times the linear
normalization of the `k`-th selected entry by the min/max of the selected
entries; when the flag is unset, or when all selected entries are equal,
every edge gets the base alpha unchanged. -/
theorem C5_alpha_scaling (t α : ℚ) (x y M : Mat) (hα0 : 0 ≤ α) (hα1 : α ≤ 1) :
    (∀ e ∈ mapping t α false x y M, e.2.2.2 = α) ∧
    ((∀ u ∈ (selectPairs M t).map (fun q => entry M q.1 q.2),
        ∀ v ∈ (selectPairs M t).map (fun q => entry M q.1 q.2), u = v) →
      ∀ e ∈ mapping t α true x y M, e.2.2.2 = α) ∧
    ((∃ u ∈ (selectPairs M t).map (fun q => entry M q.1 q.2),
        ∃ v ∈ (selectPairs M t).map (fun q => entry M q.1 q.2), u ≠ v) →
      ∀ (k : ℕ) (p : ℕ × ℕ), (selectPairs M t)[k]? = some p →
        ((mapping t α true x y M)[k]?).map (fun e => e.2.2.2) =
          some (α * ((entry M p.1 p.2 -
              listMin ((selectPairs M t).map (fun q => entry M q.1 q.2))) /
            (listMax ((selectPairs M t).map (fun q => entry M q.1 q.2)) -
              listMin ((selectPairs M t).map (fun q => entry M q.1 q.2)))))) := by
  refine ⟨?_, ?_, ?_⟩
  · intro e he
    have h := mapping_alpha_unscaled t α false x y M (Bool.false_and _) e he
    rw [h, clip_eq_self hα0 hα1]
  · intro hall e he
    set c := (selectPairs M t).map (fun q => entry M q.1 q.2) with hc
    have hmaxmin : listMax c = listMin c := by
      rcases eq_or_ne c [] with hc0 | hc0
      · rw [hc0]; rfl
      · exact (listMin_eq_listMax_of_all_eq hc0 hall).symm
    have hflag : (true && decide (listMax c ≠ listMin c)) = false := by
      rw [Bool.true_and, decide_eq_false (not_not_intro hmaxmin)]
    have h := mapping_alpha_unscaled t α true x y M hflag e he
    rw [h, clip_eq_self hα0 hα1]
  · intro hne k p hk
    set c := (selectPairs M t).map (fun q => entry M q.1 q.2) with hc
    obtain ⟨u, hu, v, hv, huv⟩ := hne
    have hmaxmin : listMax c ≠ listMin c := by
      intro h
      exact huv (all_eq_of_listMin_eq_listMax h.symm u hu v hv)
    have hflag : (true && decide (listMax c ≠ listMin c)) = true := by
      rw [Bool.true_and, decide_eq_true hmaxmin]
    have hmem : p ∈ selectPairs M t := by
      obtain ⟨hlt, hval⟩ := List.getElem?_eq_some.mp hk
      exact hval ▸ List.getElem_mem hlt
    have hci : entry M p.1 p.2 ∈ c := by
      rw [hc]; exact List.mem_map_of_mem _ hmem
    have hnorm := normalized_mem_Icc hci hmaxmin
    have ha0 : 0 ≤ α * ((entry M p.1 p.2 - listMin c) / (listMax c - listMin c)) :=
      mul_nonneg hα0 hnorm.1
    have ha1 : α * ((entry M p.1 p.2 - listMin c) / (listMax c - listMin c)) ≤ 1 :=
      mul_le_one₀ hα1 hnorm.1 hnorm.2
    simp only [mapping, List.getElem?_map, hk, Option.map_some']
    rw [hflag]
    simp only [if_true]
    rw [clip_eq_self ha0 ha1]

theorem C5_alpha_scaling_witness :
    (0 : ℚ) ≤ 7/10 ∧ (7/10 : ℚ) ≤ 1 ∧
      ((mapping (-1) (7/10) true [[(0 : ℚ), 0], [1, 1]] [[(2 : ℚ), 2]]
          [[(0 : ℚ)], [(1 : ℚ)]])[1]?).map (fun e => e.2.2.2) =
        some ((7/10 : ℚ)) := by
  refine ⟨by norm_num, by norm_num, ?_⟩
  have hsel : selectPairs [[(0 : ℚ)], [(1 : ℚ)]] (-1) = [(0, 0), (1, 0)] := by
    norm_num [selectPairs, selectRows, selectRow]
  have h := (C5_alpha_scaling (-1) (7/10) [[(0 : ℚ), 0], [1, 1]] [[(2 : ℚ), 2]]
      [[(0 : ℚ)], [(1 : ℚ)]] (by norm_num) (by norm_num)).2.2
    (by
      refine ⟨0, ?_, 1, ?_, by norm_num⟩ <;>
        simp [hsel, entry]) 1 (1, 0) (by simp [hsel])
  rw [h]
  norm_num [hsel, entry, listMin, listMax, min_def, max_def]

theorem exists_pair_of_length_two {α : Type*} :
    ∀ {l : List α}, l.length = 2 → ∃ a b, l = [a, b]
  | [a, b], _ => ⟨a, b, rfl⟩

/-- C1 (counterexample): with `x = [(1, 2)]`, `y = [(3, 4)]`, `M = [[1]]` and
threshold 0, exactly the pair `(0, 0)` is selected, yet the emitted tuple's
first component is `(x[0][0], y[0][0]) = (1, 3)`, not `x[0] = (1, 2)` as the
claim states: the code packs the two x-axis coordinates into `start` and the
two y-axis coordinates into `end` (matplotlib's plot convention). -/
theorem C1_start_end_counterexample :
    (mapping 0 (7/10) false [[(1 : ℚ), 2]] [[(3 : ℚ), 4]] [[(1 : ℚ)]]).map
        (fun e => e.1) ≠ [((1 : ℚ), 2)] := by
  have hm : mapping 0 (7/10) false [[(1 : ℚ), 2]] [[(3 : ℚ), 4]] [[(1 : ℚ)]] =
      [((1, 3), (2, 4), 1, 7/10)] := by
    norm_num [mapping, selectPairs, selectRows, selectRow, entry, numCols,
      min_def, max_def]
  rw [hm]
  norm_num

/-- C1 (amended): for batches `x : n×2`, `y : m×2` and a coupling matrix
`M : n×m`, `_mapping` returns exactly one tuple per index pair `(i, j)` with
`M[i,j]` strictly above the threshold, in row-major order of `(i, j)` (so
entries equal to the threshold are excluded and the number of emitted edges
equals the number of entries strictly above it), and the `k`-th tuple is
`((x[i][0], y[j][0]), (x[i][1], y[j][1]), max(n, m)·M[i,j], alpha)`: the
`start` component holds the two first-axis coordinates and the `end`
component the two second-axis coordinates, rather than `x[i]` and `y[j]`
themselves. -/
theorem C1_amended_rowmajor_edges (t α : ℚ) (flag : Bool) (x y M : Mat)
    (n m : ℕ)
    (hxn : x.length = n) (hx2 : ∀ row ∈ x, row.length = 2)
    (hym : y.length = m) (hy2 : ∀ row ∈ y, row.length = 2)
    (hMn : M.length = n) (hMm : ∀ row ∈ M, row.length = m) :
    (mapping t α flag x y M).length = countAbove M t ∧
    ∃ A : ℕ × ℕ → ℚ,
      mapping t α flag x y M = (specSelect M t n m).map (fun p =>
        (((x.getD p.1 []).getD 0 0, (y.getD p.2 []).getD 0 0),
         ((x.getD p.1 []).getD 1 0, (y.getD p.2 []).getD 1 0),
         ((max n m : ℕ) : ℚ) * entry M p.1 p.2, A p)) := by
  refine ⟨length_mapping t α flag x y M, ?_⟩
  have hsel : selectPairs M t = specSelect M t n m :=
    selectPairs_eq_specSelect t hMn hMm
  simp only [mapping]
  set c := (selectPairs M t).map (fun q => entry M q.1 q.2) with hc
  refine ⟨fun p => min (max
    (if (flag && decide (listMax c ≠ listMin c)) then
      α * ((entry M p.1 p.2 - listMin c) / (listMax c - listMin c))
    else α) 0) 1, ?_⟩
  rw [hsel]
  refine List.map_congr_left ?_
  intro p hp
  obtain ⟨hp1, hp2⟩ := mem_specSelect_bounds hp
  have hxr : (x.getD p.1 []).length = 2 := by
    have hlt : p.1 < x.length := by omega
    rw [List.getD_eq_getElem x [] hlt]
    exact hx2 _ (List.getElem_mem hlt)
  have hyr : (y.getD p.2 []).length = 2 := by
    have hlt : p.2 < y.length := by omega
    rw [List.getD_eq_getElem y [] hlt]
    exact hy2 _ (List.getElem_mem hlt)
  obtain ⟨xa, xb, hxrow⟩ := exists_pair_of_length_two hxr
  obtain ⟨ya, yb, hyrow⟩ := exists_pair_of_length_two hyr
  have hM0 : M ≠ [] := by
    intro h
    rw [h] at hMn
    simp at hMn
    omega
  have hcols : numCols M = m := by
    cases M with
    | nil => exact absurd rfl hM0
    | cons r rest => exact hMm r (List.mem_cons_self r rest)
  rw [hxrow, hyrow, hMn, hcols]
  norm_num [List.getD]

theorem C1_amended_rowmajor_edges_witness :
    (mapping 0 (7/10) false [[(1 : ℚ), 2]] [[(3 : ℚ), 4]] [[(1 : ℚ)]]).length =
      countAbove [[(1 : ℚ)]] 0 ∧
    ∃ A : ℕ × ℕ → ℚ,
      mapping 0 (7/10) false [[(1 : ℚ), 2]] [[(3 : ℚ), 4]] [[(1 : ℚ)]] =
        (specSelect [[(1 : ℚ)]] 0 1 1).map (fun p =>
          ((([[(1 : ℚ), 2]].getD p.1 []).getD 0 0,
            ([[(3 : ℚ), 4]].getD p.2 []).getD 0 0),
           (([[(1 : ℚ), 2]].getD p.1 []).getD 1 0,
            ([[(3 : ℚ), 4]].getD p.2 []).getD 1 0),
           ((max 1 1 : ℕ) : ℚ) * entry [[(1 : ℚ)]] p.1 p.2, A p)) :=
  C1_amended_rowmajor_edges 0 (7/10) false [[(1 : ℚ), 2]] [[(3 : ℚ), 4]]
    [[(1 : ℚ)]] 1 1 rfl (by norm_num) rfl (by norm_num) rfl (by norm_num)

end OttPlot
